import Mathlib

set_option autoImplicit false

namespace Readease

/-- Query parameters: a Python dict from string keys to string values, modelled
as an association list kept in insertion order with unique keys. -/
abbrev Params := List (String × String)

/-- Key membership test k in d. -/
def hasKey : Params → String → Bool
  | [], _ => false
  | p :: d, k => p.1 = k || hasKey d k

/-- Python assignment d[k] = v: overwrite the binding in place when the key is
already present, otherwise append the new binding at the end. -/
def dictSet (d : Params) (k v : String) : Params :=
  if hasKey d k then
    d.map (fun p => if p.1 = k then (k, v) else p)
  else
    d ++ [(k, v)]

/-- Python dict.update as used at line 48 of the source: apply every binding of
u to d, in order, overriding same-named bindings of d. -/
def dictUpdate (d u : Params) : Params :=
  u.foldl (fun acc p => dictSet acc p.1 p.2) d

/-- Python lookup d[k]: the value of the first binding of k, if any. -/
def dictGet : Params → String → Option String
  | [], _ => none
  | p :: d, k => if p.1 = k then some p.2 else dictGet d k

/-- One page entry of a decoded "pages" mapping: the optional "title" and
"extract" values, and whether the entry carries a "missing" key. -/
structure Page where
  title : Option String
  extract : Option String
  missing : Bool
  deriving DecidableEq

/-- A yielded "query" payload, holding its optional "pages" mapping: an
ordered dict from page id to page entry. -/
structure QueryPayload where
  pages : Option (List (String × Page))
  deriving DecidableEq

/-- One decoded JSON response body, with the four optional top-level fields
inspected by iterwikiquery: "error", "warning", "continue" (a parameter
mapping) and "query". -/
structure Fragment where
  error : Option String
  warning : Option String
  contin : Option Params
  query : Option QueryPayload
  deriving DecidableEq

/-- The Python exceptions the embedded functions can raise. remoteError
records the data interpolated into the message raised at lines 57-58 of the
source; transportError stands for httpget raising. -/
inductive PyExn where
  | remoteError (server url : String) (params : Params) (payload : String)
  | keyError (key : String)
  | indexError
  | assertionError
  | transportError
  deriving DecidableEq

/-- Result of running embedded Python code that may raise. -/
inductive PyResult (α : Type) where
  | ok (val : α)
  | exn (e : PyExn)
  deriving DecidableEq

/-- Trace of one full consumption of the iterwikiquery generator: the
parameters of every physical request in order, the yielded query payloads,
the warning payloads logged, and the exception ending the run, if any. -/
structure RunResult where
  requests : List Params
  yields : List QueryPayload
  warnings : List String
  error : Option PyExn
  deriving DecidableEq

/-- Target host of every API call. -/
def wpserver : String := "en.wikipedia.org"

/-- Path of the API endpoint. -/
def wpapi : String := "/w/api.php"

/-- The loop of iterwikiquery from continuation state cp onward. The transport
is modelled by the list of decoded response fragments the server would send:
each physical request consumes one fragment, and an exhausted list models
httpget raising. Per source order the error field is checked first (raising),
then the warning field (logged), then the continuation is read, and finally
the "query" payload, if present, is yielded. -/
def runwikiquery (server url : String) (params : Params) (cp : Params) :
    List Fragment → RunResult
  | [] => ⟨[dictUpdate params cp], [], [], some .transportError⟩
  | f :: rest =>
    let np := dictUpdate params cp
    match f.error with
    | some e => ⟨[np], [], [], some (.remoteError server url np e)⟩
    | none =>
      match f.contin with
      | none => ⟨[np], f.query.toList, f.warning.toList, none⟩
      | some c =>
        let r := runwikiquery server url params c rest
        ⟨np :: r.requests, f.query.toList ++ r.yields,
         f.warning.toList ++ r.warnings, r.error⟩

/-- iterwikiquery, fully consumed: the continuation state starts as the empty
start token, distinct from no continuation. -/
def iterwikiquery (server url : String) (params : Params)
    (chain : List Fragment) : RunResult :=
  runwikiquery server url params [("continue", "")] chain

/-- The external textstat.flesch_reading_ease call, modelled as a parameter
that either returns a score or raises with a message. -/
abbrev Scorer := String → Except String ℚ

/-- The warning line logged by trygetreadingease when the scorer raises. -/
def fresWarning (extract msg : String) : String :=
  "Can\x27t get FRES for " ++ extract ++ ": " ++ msg

/-- Python str.strip(): the string with leading and trailing whitespace
removed. -/
def pystrip (s : String) : String :=
  String.mk
    (((s.data.dropWhile Char.isWhitespace).reverse.dropWhile
        Char.isWhitespace).reverse)

/-- trygetreadingease: None for input that strips to length zero, without
calling the scorer; otherwise the scorer's score, downgrading a raise to a
logged warning and None. The result carries the log lines written. -/
def trygetreadingease (fres : Scorer) (extract : String) :
    Option ℚ × List String :=
  if (pystrip extract).length = 0 then
    (none, [])
  else
    match fres extract with
    | .ok s => (some s, [])
    | .error e => (none, [fresWarning extract e])

/-- getfirstparagraph: everything before the first newline, the first element
of extract.split with separator newline. -/
def getfirstparagraph (extract : String) : String :=
  String.mk (extract.data.takeWhile (fun c => !(c == '\n')))

/-- A record appended by collectextracts:
(page id, title, first paragraph, optional score). -/
abbrev ExtractRec := String × String × String × Option ℚ

/-- The inner loop of collectextracts over one pages mapping: entries without
an "extract" are skipped; an entry with an extract but no "title" raises
KeyError; otherwise (id, title, first paragraph, score of the first
paragraph) is appended. -/
def processpages (fres : Scorer) :
    List (String × Page) → PyResult (List ExtractRec)
  | [] => .ok []
  | (k, v) :: rest =>
    match v.extract with
    | none => processpages fres rest
    | some e =>
      match v.title with
      | none => .exn (.keyError "title")
      | some t =>
        match processpages fres rest with
        | .exn ex => .exn ex
        | .ok rs =>
          .ok ((k, t, getfirstparagraph e,
                (trygetreadingease fres (getfirstparagraph e)).1) :: rs)

/-- Processing of one yielded payload inside collectextracts: the lookup
resultpage["pages"] raises KeyError when the payload has no pages mapping,
then the pages loop runs. -/
def processpayload (fres : Scorer) (qp : QueryPayload) :
    PyResult (List ExtractRec) :=
  match qp.pages with
  | none => .exn (.keyError "pages")
  | some ps => processpages fres ps

/-- collectextracts' for-loop fused with the lazy generator it consumes: each
pulled fragment is requested and checked, its payload is processed, and only
then is the next physical request issued. -/
def collectrun (fres : Scorer) (server url : String) (params cp : Params) :
    List Fragment → PyResult (List ExtractRec)
  | [] => .exn .transportError
  | f :: rest =>
    let np := dictUpdate params cp
    match f.error with
    | some e => .exn (.remoteError server url np e)
    | none =>
      let here : PyResult (List ExtractRec) :=
        match f.query with
        | none => .ok []
        | some qp => processpayload fres qp
      match here with
      | .exn ex => .exn ex
      | .ok rs =>
        match f.contin with
        | none => .ok rs
        | some c =>
          match collectrun fres server url params c rest with
          | .exn ex => .exn ex
          | .ok rs2 => .ok (rs ++ rs2)

/-- The initial query parameters built by collectextracts. -/
def extractparams (catname : String) : Params :=
  [("action", "query"), ("prop", "extracts"), ("explaintext", "true"),
   ("exsentences", "10"), ("exlimit", "max"),
   ("generator", "categorymembers"),
   ("gcmtitle", "Category:" ++ catname), ("gcmtype", "page"),
   ("gcmlimit", "50"), ("format", "json")]

/-- collectextracts: run the paginated extracts query for the category and
collect one record per page entry carrying an extract. -/
def collectextracts (fres : Scorer) (catname : String)
    (chain : List Fragment) : PyResult (List ExtractRec) :=
  collectrun fres wpserver wpapi (extractparams catname) [("continue", "")]
    chain

/-- Proof helper: eager processing of a whole yielded-payload sequence, the
result collectrun produces once the interleaved requests are known to have
succeeded. -/
def processpayloads (fres : Scorer) :
    List QueryPayload → PyResult (List ExtractRec)
  | [] => .ok []
  | qp :: rest =>
    match processpayload fres qp with
    | .exn ex => .exn ex
    | .ok rs =>
      match processpayloads fres rest with
      | .exn ex => .exn ex
      | .ok rs2 => .ok (rs ++ rs2)

/-- The initial query parameters built by checkcategoryexists. -/
def checkparams (catname : String) : Params :=
  [("action", "query"), ("titles", "Category:" ++ catname),
   ("format", "json")]

/-- checkcategoryexists: materialise the iterator (an exception propagates),
assert that exactly one result was yielded, then inspect
queryresults[0]["pages"].values()[0] and report whether that first page entry
lacks a "missing" key. -/
def checkcategoryexists (catname : String) (chain : List Fragment) :
    PyResult Bool :=
  let r := iterwikiquery wpserver wpapi (checkparams catname) chain
  match r.error with
  | some e => .exn e
  | none =>
    match r.yields with
    | [q] =>
      match q.pages with
      | none => .exn (.keyError "pages")
      | some [] => .exn .indexError
      | some ((_, v) :: _) => .ok (!v.missing)
    | _ => .exn .assertionError

/-- The sort key used by the ranking step: the record's score. The default is
only reachable on records the ranking step has already dropped. -/
def scoreKey (t : ExtractRec) : ℚ := (t.2.2.2).getD 0

/-- The comparison under which Python sorted's stable ascending sort by score
key is modelled. -/
def scoreLe (a b : ExtractRec) : Prop := scoreKey a ≤ scoreKey b

instance : DecidableRel scoreLe :=
  fun a b => inferInstanceAs (Decidable (scoreKey a ≤ scoreKey b))

instance : IsTotal ExtractRec scoreLe :=
  ⟨fun a b => le_total (scoreKey a) (scoreKey b)⟩

instance : IsTrans ExtractRec scoreLe :=
  ⟨fun _ _ _ h1 h2 => le_trans h1 h2⟩

/-- The ranking step of ReadEase.getreadease, lines 159-160 of the source:
drop records whose score is None, then Python sorted by score key. sorted is
a stable ascending sort, modelled by insertion sort with a weak order. -/
def rankscored (resultlist : List ExtractRec) : List ExtractRec :=
  List.insertionSort scoreLe (resultlist.filter (fun t => (t.2.2.2).isSome))

/-- Python single-quoted rendering of a string, for dict reprs. -/
def quoteStr (s : String) : String := "\x27" ++ s ++ "\x27"

/-- Python repr of a parameter dict, as interpolated by %s. -/
def paramsRepr (d : Params) : String :=
  "\x7b" ++
    String.intercalate ", "
      (d.map (fun p => quoteStr p.1 ++ ": " ++ quoteStr p.2)) ++ "\x7d"

/-- The message of each exception, following the source's format strings;
the remoteError message is the one built at lines 57-58. -/
def pyExnMessage : PyExn → String
  | .remoteError server url params payload =>
      "Wiki API error: request for " ++ server ++ " / " ++ url ++ " / " ++
        paramsRepr params ++ " yielded " ++ payload
  | .keyError key => quoteStr key
  | .indexError => "list index out of range"
  | .assertionError => ""
  | .transportError => "httpget raised"

/-- s occurs as a contiguous substring of t. -/
def substr (s t : String) : Prop := ∃ a b, t = a ++ s ++ b

/-- A well-formed response chain whose run sees the continuation tokens conts
in order: every fragment is error-free, the first conts.length fragments carry
the successive continuation mappings, and the final fragment carries none. -/
inductive Chain : List Params → List Fragment → Prop where
  | last (f : Fragment) : f.error = none → f.contin = none → Chain [] [f]
  | step (c : Params) (f : Fragment) (conts : List Params)
      (rest : List Fragment) :
      f.error = none → f.contin = some c → Chain conts rest →
      Chain (c :: conts) (f :: rest)

theorem dictGet_map_overwrite (k v : String) (d : Params) :
    dictGet (d.map (fun p => if p.1 = k then (k, v) else p)) k =
      if hasKey d k then some v else none := by
  induction d with
  | nil => rfl
  | cons p d ih =>
    by_cases h : p.1 = k
    · simp [dictGet, hasKey, h]
    · simp [dictGet, hasKey, h, ih]

theorem dictGet_map_overwrite_ne (k v k' : String) (d : Params)
    (hne : k' ≠ k) :
    dictGet (d.map (fun p => if p.1 = k then (k, v) else p)) k' =
      dictGet d k' := by
  induction d with
  | nil => rfl
  | cons p d ih =>
    by_cases h : p.1 = k
    · have hk : ¬ (k = k') := fun hkk => hne hkk.symm
      have hp : ¬ (p.1 = k') := by rw [h]; exact hk
      rw [List.map_cons, if_pos h, dictGet, dictGet, if_neg hk, if_neg hp]
      exact ih
    · rw [List.map_cons, if_neg h, dictGet, dictGet]
      by_cases hp : p.1 = k'
      · rw [if_pos hp, if_pos hp]
      · rw [if_neg hp, if_neg hp]
        exact ih

theorem dictGet_append_single (d : Params) (k v : String)
    (h : hasKey d k = false) : dictGet (d ++ [(k, v)]) k = some v := by
  induction d with
  | nil => simp [dictGet]
  | cons p d ih =>
    rw [hasKey] at h
    simp only [Bool.or_eq_false_iff, decide_eq_false_iff_not] at h
    simp [dictGet, h.1, ih h.2]

theorem dictGet_append_single_ne (d : Params) (k v k' : String)
    (hne : k' ≠ k) : dictGet (d ++ [(k, v)]) k' = dictGet d k' := by
  induction d with
  | nil =>
    have hk : ¬ (k = k') := fun hkk => hne hkk.symm
    simp [dictGet, hk]
  | cons p d ih =>
    rw [List.cons_append, dictGet, dictGet]
    by_cases hp : p.1 = k'
    · rw [if_pos hp, if_pos hp]
    · rw [if_neg hp, if_neg hp]
      exact ih

theorem dictGet_dictSet_self (d : Params) (k v : String) :
    dictGet (dictSet d k v) k = some v := by
  rw [dictSet]
  by_cases h : hasKey d k
  · rw [if_pos h, dictGet_map_overwrite, if_pos h]
  · rw [if_neg h, dictGet_append_single d k v (by simpa using h)]

theorem dictGet_dictSet_ne (d : Params) (k v k' : String) (hne : k' ≠ k) :
    dictGet (dictSet d k v) k' = dictGet d k' := by
  rw [dictSet]
  by_cases h : hasKey d k
  · rw [if_pos h, dictGet_map_overwrite_ne _ _ _ _ hne]
  · rw [if_neg h, dictGet_append_single_ne d k v k' hne]

theorem dictGet_eq_none_of_not_mem (u : Params) (k : String)
    (h : k ∉ u.map Prod.fst) : dictGet u k = none := by
  induction u with
  | nil => rfl
  | cons p u ih =>
    simp only [List.map_cons, List.mem_cons, not_or] at h
    have hp : ¬ (p.1 = k) := fun hpk => h.1 hpk.symm
    rw [dictGet, if_neg hp]
    exact ih h.2

theorem dictUpdate_cons (d : Params) (p : String × String) (u : Params) :
    dictUpdate d (p :: u) = dictUpdate (dictSet d p.1 p.2) u := rfl

theorem dictGet_dictUpdate (d u : Params) (k : String)
    (hu : (u.map Prod.fst).Nodup) :
    dictGet (dictUpdate d u) k = (dictGet u k).elim (dictGet d k) some := by
  induction u generalizing d with
  | nil => rfl
  | cons p u ih =>
    obtain ⟨k0, v0⟩ := p
    rw [List.map_cons, List.nodup_cons] at hu
    rw [dictUpdate_cons]
    by_cases hk : k = k0
    · subst hk
      have h1 : dictGet ((k, v0) :: u) k = some v0 := by simp [dictGet]
      have h2 : dictGet u k = none := dictGet_eq_none_of_not_mem u k hu.1
      rw [h1, ih _ hu.2, h2]
      exact dictGet_dictSet_self d k v0
    · have h1 : dictGet ((k0, v0) :: u) k = dictGet u k := by
        have hk0 : ¬ ((k0, v0).1 = k) := fun hkk => hk hkk.symm
        rw [dictGet, if_neg hk0]
      rw [h1, ih _ hu.2, dictGet_dictSet_ne d k0 v0 k hk]

theorem chain_run (server url : String) (params : Params)
    {conts : List Params} {frags : List Fragment} (h : Chain conts frags) :
    ∀ cp, (runwikiquery server url params cp frags).requests =
        dictUpdate params cp :: conts.map (fun c => dictUpdate params c) ∧
      (runwikiquery server url params cp frags).error = none := by
  induction h with
  | last f he hc =>
    intro cp
    simp [runwikiquery, he, hc]
  | step c f conts rest he hc hch ih =>
    intro cp
    have := ih c
    simp only [runwikiquery, he, hc, List.map_cons]
    exact ⟨by rw [this.1], this.2⟩

/-- C1: over an error-free response chain carrying the continuation tokens
conts (N of them), a full run of iterwikiquery issues exactly N + 1 physical
requests: the first request uses the caller's parameters updated with the
empty start continuation, and each later request uses the caller's parameters
updated with the previous fragment's continuation mapping; dict update makes
a continuation binding override a same-named caller parameter, as the final
conjunct states for lookups. -/
theorem c1_request_params (server url : String) (params : Params)
    (conts : List Params) (frags : List Fragment) (h : Chain conts frags) :
    (iterwikiquery server url params frags).requests =
      dictUpdate params [("continue", "")] ::
        conts.map (fun c => dictUpdate params c) ∧
    (iterwikiquery server url params frags).requests.length =
      conts.length + 1 ∧
    ∀ d u k, (u.map Prod.fst).Nodup →
      dictGet (dictUpdate d u) k = (dictGet u k).elim (dictGet d k) some := by
  have hreq := (chain_run server url params h [("continue", "")]).1
  refine ⟨hreq, ?_, fun d u k hu => dictGet_dictUpdate d u k hu⟩
  show (runwikiquery server url params [("continue", "")] frags).requests.length
    = conts.length + 1
  rw [hreq]
  simp

/-- C1 witness: a two-fragment chain with one continuation token issues two
requests; the start token and the continuation both override the caller's
same-named "continue" parameter, and the lookup conjunct holds on a concrete
update. -/
theorem c1_request_params_witness :
    (iterwikiquery "en.wikipedia.org" "/w/api.php"
        [("a", "b"), ("continue", "x")]
        [⟨none, none, some [("c", "1"), ("continue", "y")], none⟩,
         ⟨none, none, none, none⟩]).requests =
      [[("a", "b"), ("continue", "")],
       [("a", "b"), ("continue", "y"), ("c", "1")]] ∧
    dictGet (dictUpdate [("a", "b")] [("a", "c")]) "a" =
      (dictGet [("a", "c")] "a").elim (dictGet [("a", "b")] "a") some := by
  have h := c1_request_params "en.wikipedia.org" "/w/api.php"
    [("a", "b"), ("continue", "x")]
    [[("c", "1"), ("continue", "y")]]
    [⟨none, none, some [("c", "1"), ("continue", "y")], none⟩,
     ⟨none, none, none, none⟩]
    (Chain.step _ _ _ _ rfl rfl (Chain.last _ rfl rfl))
  refine ⟨h.1.trans (by decide), h.2.2 _ _ _ (by decide)⟩

/-- C2: a fragment carrying no continuation ends the run: its query payload,
if present, is still yielded, and no further physical request is issued no
matter what responses would have followed. -/
theorem c2_no_continuation_stops (server url : String) (params cp : Params)
    (f : Fragment) (rest : List Fragment)
    (he : f.error = none) (hc : f.contin = none) :
    runwikiquery server url params cp (f :: rest) =
      ⟨[dictUpdate params cp], f.query.toList, f.warning.toList, none⟩ := by
  simp [runwikiquery, he, hc]

/-- C2 witness: a terminal fragment with a query payload yields it and stops
after one request, although another response was available. -/
theorem c2_no_continuation_stops_witness :
    runwikiquery "en.wikipedia.org" "/w/api.php" [("a", "b")]
        [("continue", "")]
        [⟨none, none, none, some ⟨some []⟩⟩, ⟨none, none, none, none⟩] =
      ⟨[[("a", "b"), ("continue", "")]], [⟨some []⟩], [], none⟩ :=
  c2_no_continuation_stops "en.wikipedia.org" "/w/api.php" [("a", "b")]
    [("continue", "")] ⟨none, none, none, some ⟨some []⟩⟩
    [⟨none, none, none, none⟩] rfl rfl

theorem substr_self_left (a s : String) : substr s (a ++ s) :=
  ⟨a, "", by rw [String.append_empty]⟩

theorem substr_right (s t b : String) (h : substr s t) : substr s (t ++ b) := by
  obtain ⟨x, y, hxy⟩ := h
  exact ⟨x, y ++ b, by rw [hxy, String.append_assoc (x ++ s) y b]⟩

/-- C3: a fragment whose decoded body carries an "error" field aborts the run
at once: no payload is yielded, no further physical request is issued, and
the exception raised records the target server, the path, the parameters of
the failing request and the error payload, each of which occurs verbatim in
its rendered message. -/
theorem c3_error_aborts (server url : String) (params cp : Params)
    (f : Fragment) (rest : List Fragment) (e : String)
    (he : f.error = some e) :
    runwikiquery server url params cp (f :: rest) =
      ⟨[dictUpdate params cp], [], [],
        some (.remoteError server url (dictUpdate params cp) e)⟩ ∧
    substr server
      (pyExnMessage (.remoteError server url (dictUpdate params cp) e)) ∧
    substr url
      (pyExnMessage (.remoteError server url (dictUpdate params cp) e)) ∧
    substr (paramsRepr (dictUpdate params cp))
      (pyExnMessage (.remoteError server url (dictUpdate params cp) e)) ∧
    substr e
      (pyExnMessage (.remoteError server url (dictUpdate params cp) e)) := by
  refine ⟨by simp [runwikiquery, he], ?_, ?_, ?_, ?_⟩
  · exact substr_right _ _ _ (substr_right _ _ _ (substr_right _ _ _
      (substr_right _ _ _ (substr_right _ _ _ (substr_right _ _ _
        (substr_self_left _ _))))))
  · exact substr_right _ _ _ (substr_right _ _ _ (substr_right _ _ _
      (substr_right _ _ _ (substr_self_left _ _))))
  · exact substr_right _ _ _ (substr_right _ _ _ (substr_self_left _ _))
  · exact substr_self_left _ _

/-- C3 witness: a first fragment carrying an error aborts with the recorded
request data although further responses were available, and the message
inclusions hold there. -/
theorem c3_error_aborts_witness :
    runwikiquery "en.wikipedia.org" "/w/api.php" [("a", "b")]
        [("continue", "")]
        [⟨some "badquery", none, none, some ⟨some []⟩⟩,
         ⟨none, none, none, none⟩] =
      ⟨[[("a", "b"), ("continue", "")]], [], [],
        some (.remoteError "en.wikipedia.org" "/w/api.php"
          [("a", "b"), ("continue", "")] "badquery")⟩ ∧
    substr "badquery"
      (pyExnMessage (.remoteError "en.wikipedia.org" "/w/api.php"
        [("a", "b"), ("continue", "")] "badquery")) := by
  have h := c3_error_aborts "en.wikipedia.org" "/w/api.php" [("a", "b")]
    [("continue", "")] ⟨some "badquery", none, none, some ⟨some []⟩⟩
    [⟨none, none, none, none⟩] "badquery" rfl
  exact ⟨h.1.trans (by decide), h.2.2.2.2⟩

/-- C4: a fragment carrying a "warning" field but no "error" field does not
abort: the warning payload is logged first, the fragment's query payload, if
present, is still yielded, and when a continuation is present the run goes on
exactly as the run on the remaining responses from that continuation state. -/
theorem c4_warning_continues (server url : String) (params cp c : Params)
    (f : Fragment) (rest : List Fragment) (w : String)
    (he : f.error = none) (hw : f.warning = some w) (hc : f.contin = some c) :
    runwikiquery server url params cp (f :: rest) =
      ⟨dictUpdate params cp ::
         (runwikiquery server url params c rest).requests,
       f.query.toList ++ (runwikiquery server url params c rest).yields,
       w :: (runwikiquery server url params c rest).warnings,
       (runwikiquery server url params c rest).error⟩ := by
  simp [runwikiquery, he, hw, hc]

/-- C4 witness: a warning-carrying first fragment is logged, its payload is
yielded, and the run still performs the follow-up request of its
continuation. -/
theorem c4_warning_continues_witness :
    runwikiquery "en.wikipedia.org" "/w/api.php" [("a", "b")]
        [("continue", "")]
        [⟨none, some "deprecated", some [("c", "1")], some ⟨some []⟩⟩,
         ⟨none, none, none, none⟩] =
      ⟨[[("a", "b"), ("continue", "")], [("a", "b"), ("c", "1")]],
       [⟨some []⟩], ["deprecated"], none⟩ :=
  (c4_warning_continues "en.wikipedia.org" "/w/api.php" [("a", "b")]
    [("continue", "")] [("c", "1")]
    ⟨none, some "deprecated", some [("c", "1")], some ⟨some []⟩⟩
    [⟨none, none, none, none⟩] "deprecated" rfl rfl rfl).trans (by decide)

/-- C5: trygetreadingease is a total function, so no input makes it raise.
When the stripped input has length zero the result is None with nothing
logged, for every scorer alike, so the scoring algorithm is not invoked; and
on other input whose scorer raises, the failure is downgraded to one logged
warning naming the text and the failure, with None returned. -/
theorem c5_tryscore_absent (fres : Scorer) (extract : String) :
    ((pystrip extract).length = 0 →
      ∀ g : Scorer, trygetreadingease g extract = (none, [])) ∧
    ((pystrip extract).length ≠ 0 → ∀ e, fres extract = .error e →
      trygetreadingease fres extract = (none, [fresWarning extract e])) := by
  constructor
  · intro h g
    rw [trygetreadingease, if_pos h]
  · intro h e hf
    rw [trygetreadingease, if_neg h, hf]

/-- C5 witness: whitespace input gives None with no log even under a raising
scorer, and nonblank input under a raising scorer gives None plus the
warning line. -/
theorem c5_tryscore_absent_witness :
    trygetreadingease (fun _ => Except.error "no sentences") "   " =
      (none, []) ∧
    trygetreadingease (fun _ => Except.error "no sentences") "abc" =
      (none, [fresWarning "abc" "no sentences"]) :=
  ⟨(c5_tryscore_absent (fun _ => Except.error "no sentences") "   ").1
      (by decide) _,
   (c5_tryscore_absent (fun _ => Except.error "no sentences") "abc").2
      (by decide) "no sentences" rfl⟩

theorem filter_orderedInsert_score (q : ℚ) (a : ExtractRec)
    (l : List ExtractRec) :
    (List.orderedInsert scoreLe a l).filter (fun t => t.2.2.2 = some q) =
      if a.2.2.2 = some q then
        a :: l.filter (fun t => t.2.2.2 = some q)
      else l.filter (fun t => t.2.2.2 = some q) := by
  induction l with
  | nil =>
    by_cases ha : a.2.2.2 = some q
    · simp [List.orderedInsert, ha]
    · simp [List.orderedInsert, ha]
  | cons b l ih =>
    rw [List.orderedInsert]
    by_cases hab : scoreLe a b
    · rw [if_pos hab]
      by_cases ha : a.2.2.2 = some q
      · simp [List.filter_cons, ha]
      · simp [List.filter_cons, ha]
    · rw [if_neg hab]
      by_cases ha : a.2.2.2 = some q
      · have hb : ¬ (b.2.2.2 = some q) := by
          intro hbq
          have hkey : scoreKey a = scoreKey b := by
            rw [scoreKey, scoreKey, ha, hbq]
          exact hab (le_of_eq hkey)
        simp [List.filter_cons, ha, hb, ih]
      · simp [List.filter_cons, ha, ih]

theorem filter_insertionSort_score (q : ℚ) (l : List ExtractRec) :
    (List.insertionSort scoreLe l).filter (fun t => t.2.2.2 = some q) =
      l.filter (fun t => t.2.2.2 = some q) := by
  induction l with
  | nil => rfl
  | cons a l ih =>
    rw [List.insertionSort, filter_orderedInsert_score]
    by_cases ha : a.2.2.2 = some q
    · rw [if_pos ha, ih]
      simp [List.filter_cons, ha]
    · rw [if_neg ha, ih]
      simp [List.filter_cons, ha]

theorem filter_some_filter (q : ℚ) (l : List ExtractRec) :
    (l.filter (fun t => (t.2.2.2).isSome)).filter
        (fun t => t.2.2.2 = some q) =
      l.filter (fun t => t.2.2.2 = some q) := by
  induction l with
  | nil => rfl
  | cons a l ih =>
    by_cases hs : (a.2.2.2).isSome
    · by_cases ha : a.2.2.2 = some q
      · simp [List.filter_cons, hs, ha, ih]
      · simp [List.filter_cons, hs, ha, ih]
    · have ha : ¬ (a.2.2.2 = some q) := fun hq => hs (by rw [hq]; rfl)
      simp [List.filter_cons, hs, ha, ih]

/-- C6: the ranking step keeps exactly the records whose score is present
(the result is a permutation of that filter), sorts them ascending by score
key, and is stable: for each score value the kept records stand in their
original arrival order; it is a total function and may return the empty
list. -/
theorem c6_rank_stable_sorted (resultlist : List ExtractRec) :
    (rankscored resultlist).Perm
        (resultlist.filter (fun t => (t.2.2.2).isSome)) ∧
    List.Sorted scoreLe (rankscored resultlist) ∧
    (∀ q : ℚ, (rankscored resultlist).filter (fun t => t.2.2.2 = some q) =
      resultlist.filter (fun t => t.2.2.2 = some q)) ∧
    rankscored [] = [] :=
  ⟨List.perm_insertionSort scoreLe _,
   List.sorted_insertionSort scoreLe _,
   fun q => (filter_insertionSort_score q _).trans (filter_some_filter q _),
   rfl⟩

/-- C7 counterexample: a single-fragment existence-check response whose pages
mapping holds a first entry without the missing marker and a second entry
with it makes checkcategoryexists return true, although not every returned
page entry lacks the missing marker. -/
theorem c7_not_all_entries_counterexample :
    checkcategoryexists "X"
        [⟨none, none, none,
          some ⟨some [("1", ⟨some "A", none, false⟩),
                      ("2", ⟨some "B", none, true⟩)]⟩⟩] = .ok true ∧
    ¬ (∀ p ∈ [("1", (⟨some "A", none, false⟩ : Page)),
              ("2", ⟨some "B", none, true⟩)], p.2.missing = false) := by
  constructor
  · rfl
  · intro h
    exact absurd (h ("2", ⟨some "B", none, true⟩) (by simp)) (by simp)

/-- C7 (amended): on a single-fragment existence-check response with a
nonempty pages mapping, checkcategoryexists returns true exactly when the
first page entry carries no missing marker; entries after the first are
never inspected. -/
theorem c7_first_entry_decides (catname k : String) (v : Page)
    (ps : List (String × Page)) (f : Fragment)
    (he : f.error = none) (hc : f.contin = none)
    (hq : f.query = some ⟨some ((k, v) :: ps)⟩) :
    checkcategoryexists catname [f] = .ok (!v.missing) ∧
    (checkcategoryexists catname [f] = .ok true ↔ v.missing = false) := by
  have h1 : checkcategoryexists catname [f] = .ok (!v.missing) := by
    simp [checkcategoryexists, iterwikiquery, runwikiquery, he, hc, hq]
  refine ⟨h1, ?_⟩
  rw [h1]
  constructor
  · intro h2
    have := PyResult.ok.inj h2
    cases hm : v.missing
    · rfl
    · rw [hm] at this
      exact absurd this (by simp)
  · intro h2
    rw [h2]
    rfl

/-- C7 witness for the amended claim: a one-entry pages mapping whose entry
carries the missing marker makes checkcategoryexists return false. -/
theorem c7_first_entry_decides_witness :
    checkcategoryexists "Y"
        [⟨none, none, none, some ⟨some [("3", ⟨some "C", none, true⟩)]⟩⟩] =
      .ok false :=
  (c7_first_entry_decides "Y" "3" ⟨some "C", none, true⟩ []
    ⟨none, none, none, some ⟨some [("3", ⟨some "C", none, true⟩)]⟩⟩
    rfl rfl rfl).1

/-- C8: whenever the existence-check iterator completes without raising,
checkcategoryexists trips its assertion exactly when the number of results
it received differs from one: with a single yielded result the assertion
holds, and with any other count the call ends in the assertion violation
instead of returning a boolean. -/
theorem c8_assert_single_yield (catname : String) (chain : List Fragment)
    (h : (iterwikiquery wpserver wpapi (checkparams catname) chain).error =
      none) :
    checkcategoryexists catname chain = .exn .assertionError ↔
      (iterwikiquery wpserver wpapi
          (checkparams catname) chain).yields.length ≠ 1 := by
  rw [checkcategoryexists]
  simp only [h]
  rcases hy : (iterwikiquery wpserver wpapi (checkparams catname)
      chain).yields with - | ⟨q, - | ⟨q2, ys⟩⟩
  · simp
  · rcases hp : q.pages with - | ⟨- | ⟨⟨k1, v1⟩, ps⟩⟩ <;> simp [hp]
  · simp

/-- C8 witness: a clean two-yield run ends in the assertion violation. -/
theorem c8_assert_single_yield_witness :
    (iterwikiquery wpserver wpapi (checkparams "X")
        [⟨none, none, some [], some ⟨some []⟩⟩,
         ⟨none, none, none, some ⟨some []⟩⟩]).error = none ∧
    (checkcategoryexists "X"
        [⟨none, none, some [], some ⟨some []⟩⟩,
         ⟨none, none, none, some ⟨some []⟩⟩] = .exn .assertionError ↔
      (iterwikiquery wpserver wpapi (checkparams "X")
          [⟨none, none, some [], some ⟨some []⟩⟩,
           ⟨none, none, none, some ⟨some []⟩⟩]).yields.length ≠ 1) :=
  ⟨rfl, c8_assert_single_yield "X"
    [⟨none, none, some [], some ⟨some []⟩⟩,
     ⟨none, none, none, some ⟨some []⟩⟩] rfl⟩

theorem collectrun_eq_processpayloads (fres : Scorer) (server url : String)
    (params : Params) (chain : List Fragment) :
    ∀ cp : Params,
      (runwikiquery server url params cp chain).error = none →
      collectrun fres server url params cp chain =
        processpayloads fres
          (runwikiquery server url params cp chain).yields := by
  induction chain with
  | nil =>
    intro cp h
    simp [runwikiquery] at h
  | cons f rest ih =>
    intro cp h
    rcases hfe : f.error with - | e
    · rcases hfc : f.contin with - | c
      · rcases hfq : f.query with - | qp
        · simp [collectrun, runwikiquery, processpayloads, hfe, hfc, hfq]
        · simp only [collectrun, runwikiquery, hfe, hfc, hfq,
            Option.toList_some]
          rcases hpp : processpayload fres qp with rs | ex
          · simp [processpayloads, hpp]
          · simp [processpayloads, hpp]
      · have htail : (runwikiquery server url params c rest).error = none := by
          simpa [runwikiquery, hfe, hfc] using h
        have hih := ih c htail
        rcases hfq : f.query with - | qp
        · simp only [collectrun, runwikiquery, hfe, hfc, hfq,
            Option.toList_none, List.nil_append]
          rw [hih]
          rcases hpt : processpayloads fres
              (runwikiquery server url params c rest).yields with rs2 | ex
          · simp
          · simp
        · simp only [collectrun, runwikiquery, hfe, hfc, hfq,
            Option.toList_some]
          rcases hpp : processpayload fres qp with rs | ex
          · rw [hih]
            rcases hpt : processpayloads fres
                (runwikiquery server url params c rest).yields with rs2 | ex
            · simp [processpayloads, hpp, hpt]
            · simp [processpayloads, hpp, hpt]
          · simp [processpayloads, hpp]
    · simp [runwikiquery, hfe] at h

theorem collectrun_ok_run_clean (fres : Scorer) (server url : String)
    (params : Params) (chain : List Fragment) :
    ∀ (cp : Params) (rs : List ExtractRec),
      collectrun fres server url params cp chain = .ok rs →
      (runwikiquery server url params cp chain).error = none := by
  induction chain with
  | nil =>
    intro cp rs h
    simp [collectrun] at h
  | cons f rest ih =>
    intro cp rs h
    rcases hfe : f.error with - | e
    · rcases hfc : f.contin with - | c
      · simp [runwikiquery, hfe, hfc]
      · rcases hcr : collectrun fres server url params c rest with rs2 | ex
        · simp only [runwikiquery, hfe, hfc]
          exact ih c rs2 hcr
        · rcases hfq : f.query with - | qp
          · rw [collectrun] at h
            simp [hfe, hfc, hfq, hcr] at h
          · rw [collectrun] at h
            simp only [hfe, hfc, hfq, hcr] at h
            rcases hpp : processpayload fres qp with rs1 | ex1 <;>
              simp [hpp] at h
    · rw [collectrun] at h
      simp [hfe] at h

theorem processpages_exn_title (fres : Scorer) (ps : List (String × Page)) :
    ∀ ex, processpages fres ps = .exn ex → ex = .keyError "title" := by
  induction ps with
  | nil =>
    intro ex h
    simp [processpages] at h
  | cons p ps ih =>
    obtain ⟨k, v⟩ := p
    intro ex h
    rcases hve : v.extract with - | e
    · rw [processpages] at h
      simp only [hve] at h
      exact ih ex h
    · rcases hvt : v.title with - | t
      · rw [processpages] at h
        simp only [hve, hvt] at h
        exact (PyResult.exn.inj h.symm)
      · rw [processpages] at h
        simp only [hve, hvt] at h
        rcases hrec : processpages fres ps with rs | ex2
        · simp [hrec] at h
        · simp only [hrec] at h
          exact (PyResult.exn.inj h.symm).symm ▸ ih ex2 hrec

theorem processpages_bad_title (fres : Scorer) (ps : List (String × Page))
    (h : ∃ kv ∈ ps, (kv.2.extract).isSome ∧ kv.2.title = none) :
    processpages fres ps = .exn (.keyError "title") := by
  induction ps with
  | nil => simp at h
  | cons p ps ih =>
    obtain ⟨k, v⟩ := p
    rcases h with ⟨kv, hmem, hext, htit⟩
    rcases List.mem_cons.mp hmem with heq | hmem2
    · have hext2 : (v.extract).isSome := by rw [heq] at hext; exact hext
      have htit2 : v.title = none := by rw [heq] at htit; exact htit
      obtain ⟨e, he⟩ := Option.isSome_iff_exists.mp hext2
      rw [processpages]
      simp only [he, htit2]
    · have hrec := ih ⟨kv, hmem2, hext, htit⟩
      rw [processpages]
      rcases hve : v.extract with - | e
      · simpa [hve] using hrec
      · rcases hvt : v.title with - | t
        · simp [hve, hvt]
        · simp [hve, hvt, hrec]

theorem processpages_ok_mem (fres : Scorer) (ps : List (String × Page)) :
    ∀ rs, processpages fres ps = .ok rs →
      ∀ kv ∈ ps, ∀ e, kv.2.extract = some e →
        ∃ t, kv.2.title = some t ∧
          (kv.1, t, getfirstparagraph e,
            (trygetreadingease fres (getfirstparagraph e)).1) ∈ rs := by
  induction ps with
  | nil =>
    intro rs _ kv hmem
    simp at hmem
  | cons p ps ih =>
    obtain ⟨k, v⟩ := p
    intro rs h kv hmem e he
    rcases hve : v.extract with - | e0
    · rw [processpages] at h
      simp only [hve] at h
      rcases List.mem_cons.mp hmem with heq | hmem2
      · subst heq
        rw [he] at hve
        exact absurd hve (by simp)
      · exact ih rs h kv hmem2 e he
    · rcases hvt : v.title with - | t0
      · rw [processpages] at h
        simp only [hve, hvt] at h
        exact absurd h (by simp)
      · rw [processpages] at h
        simp only [hve, hvt] at h
        rcases hrec : processpages fres ps with rs0 | ex
        · simp only [hrec] at h
          have hrs : rs = (k, t0, getfirstparagraph e0,
              (trygetreadingease fres (getfirstparagraph e0)).1) :: rs0 :=
            (PyResult.ok.inj h).symm
          rcases List.mem_cons.mp hmem with heq | hmem2
          · subst heq
            have he0 : e0 = e := Option.some.inj (hve ▸ he)
            subst he0
            exact ⟨t0, hvt, by rw [hrs]; exact List.mem_cons_self _ _⟩
          · obtain ⟨t, ht, hin⟩ := ih rs0 hrec kv hmem2 e he
            exact ⟨t, ht, by rw [hrs]; exact List.mem_cons_of_mem _ hin⟩
        · simp [hrec] at h

theorem processpayloads_bad_title (fres : Scorer) (ys : List QueryPayload)
    (hall : ∀ qp ∈ ys, (qp.pages).isSome)
    (hbad : ∃ qp ∈ ys, ∃ ps, qp.pages = some ps ∧
      ∃ kv ∈ ps, (kv.2.extract).isSome ∧ kv.2.title = none) :
    processpayloads fres ys = .exn (.keyError "title") := by
  induction ys with
  | nil => simp at hbad
  | cons qp0 ys ih =>
    obtain ⟨ps0, hps0⟩ := Option.isSome_iff_exists.mp
      (hall qp0 (List.mem_cons_self _ _))
    have hpp0 : processpayload fres qp0 = processpages fres ps0 := by
      rw [processpayload, hps0]
    rcases hpr : processpages fres ps0 with rs | ex
    · rcases hbad with ⟨qp, hmem, ps, hps, kv, hkv, hext, htit⟩
      rcases List.mem_cons.mp hmem with heq | hmem2
      · subst heq
        have : ps = ps0 := Option.some.inj (hps ▸ hps0 ▸ rfl)
        subst this
        exact absurd (processpages_bad_title fres ps ⟨kv, hkv, hext, htit⟩)
          (by rw [hpr]; simp)
      · have hihr := ih (fun q hq => hall q (List.mem_cons_of_mem _ hq))
          ⟨qp, hmem2, ps, hps, kv, hkv, hext, htit⟩
        rw [processpayloads, hpp0, hpr, hihr]
    · have hex : ex = .keyError "title" :=
        processpages_exn_title fres ps0 ex hpr
      rw [processpayloads, hpp0, hpr, hex]

theorem processpayloads_ok_mem (fres : Scorer) (ys : List QueryPayload) :
    ∀ rs, processpayloads fres ys = .ok rs →
      ∀ qp ∈ ys, ∀ ps, qp.pages = some ps →
        ∀ kv ∈ ps, ∀ e, kv.2.extract = some e →
          ∃ t, kv.2.title = some t ∧
            (kv.1, t, getfirstparagraph e,
              (trygetreadingease fres (getfirstparagraph e)).1) ∈ rs := by
  induction ys with
  | nil =>
    intro rs _ qp hmem
    simp at hmem
  | cons qp0 ys ih =>
    intro rs h qp hmem ps hps kv hkv e he
    rcases hpp : processpayload fres qp0 with rs1 | ex
    · rcases hpt : processpayloads fres ys with rs2 | ex
      · rw [processpayloads] at h
        simp only [hpp, hpt] at h
        have hrs : rs = rs1 ++ rs2 := (PyResult.ok.inj h).symm
        rcases List.mem_cons.mp hmem with heq | hmem2
        · subst heq
          have hpg : processpages fres ps = .ok rs1 := by
            rw [processpayload, hps] at hpp
            exact hpp
          obtain ⟨t, ht, hin⟩ :=
            processpages_ok_mem fres ps rs1 hpg kv hkv e he
          exact ⟨t, ht, by rw [hrs]; exact List.mem_append_left _ hin⟩
        · obtain ⟨t, ht, hin⟩ := ih rs2 hpt qp hmem2 ps hps kv hkv e he
          exact ⟨t, ht, by rw [hrs]; exact List.mem_append_right _ hin⟩
      · rw [processpayloads] at h
        simp [hpp, hpt] at h
    · rw [processpayloads] at h
      simp [hpp] at h

/-- C9: on a successful collectextracts run, every page entry of a yielded
payload that carries an extract contributes the record (page id, title,
first paragraph of the extract, score of that first paragraph): the score is
computed from the first paragraph only, so an extract whose first line is
blank gets score None however the rest of the extract would score. -/
theorem c9_record_shape (fres : Scorer) (catname : String)
    (chain : List Fragment) (rs : List ExtractRec)
    (hok : collectextracts fres catname chain = .ok rs) :
    ∀ qp ∈ (iterwikiquery wpserver wpapi
        (extractparams catname) chain).yields,
      ∀ ps, qp.pages = some ps →
        ∀ kv ∈ ps, ∀ e, kv.2.extract = some e →
          ∃ t, kv.2.title = some t ∧
            (kv.1, t, getfirstparagraph e,
              (trygetreadingease fres (getfirstparagraph e)).1) ∈ rs ∧
            ((pystrip (getfirstparagraph e)).length = 0 →
              (trygetreadingease fres (getfirstparagraph e)).1 = none) := by
  have herr : (runwikiquery wpserver wpapi (extractparams catname)
      [("continue", "")] chain).error = none :=
    collectrun_ok_run_clean fres wpserver wpapi (extractparams catname)
      chain [("continue", "")] rs hok
  have hpp : processpayloads fres (runwikiquery wpserver wpapi
      (extractparams catname) [("continue", "")] chain).yields = .ok rs := by
    rw [← collectrun_eq_processpayloads fres wpserver wpapi
      (extractparams catname) chain [("continue", "")] herr]
    exact hok
  intro qp hqp ps hps kv hkv e he
  obtain ⟨t, ht, hin⟩ :=
    processpayloads_ok_mem fres _ rs hpp qp hqp ps hps kv hkv e he
  refine ⟨t, ht, hin, fun hb => ?_⟩
  rw [trygetreadingease, if_pos hb]

/-- C9 witness: a page whose extract starts with a blank first line yields
the record with empty first paragraph and score None, under a scorer that
would succeed on the full extract. -/
theorem c9_record_shape_witness :
    ∃ t, (Page.mk (some "T") (some "\nLater text.") false).title = some t ∧
      ("7", t, getfirstparagraph "\nLater text.",
        (trygetreadingease (fun _ => Except.ok 42)
          (getfirstparagraph "\nLater text.")).1) ∈
        ([("7", "T", "", none)] : List ExtractRec) ∧
      ((pystrip (getfirstparagraph "\nLater text.")).length = 0 →
        (trygetreadingease (fun _ => Except.ok 42)
          (getfirstparagraph "\nLater text.")).1 = none) :=
  c9_record_shape (fun _ => Except.ok 42) "X"
    [⟨none, none, none,
      some ⟨some [("7", ⟨some "T", some "\nLater text.", false⟩)]⟩⟩]
    [("7", "T", "", none)] rfl
    ⟨some [("7", ⟨some "T", some "\nLater text.", false⟩)]⟩ (by decide)
    [("7", ⟨some "T", some "\nLater text.", false⟩)] rfl
    ("7", ⟨some "T", some "\nLater text.", false⟩) (by decide)
    "\nLater text." rfl

/-- C10: whenever the extracts iterator runs cleanly, every yielded payload
carries a pages mapping, and some returned page entry carries an extract but
no title, collectextracts aborts with the unhandled KeyError for "title"
instead of returning a record list, although the protocol leaves "title"
optional (Fragment.query page entries model it as an Option). -/
theorem c10_missing_title_raises (fres : Scorer) (catname : String)
    (chain : List Fragment)
    (herr : (iterwikiquery wpserver wpapi
      (extractparams catname) chain).error = none)
    (hall : ∀ qp ∈ (iterwikiquery wpserver wpapi
      (extractparams catname) chain).yields, (qp.pages).isSome)
    (hbad : ∃ qp ∈ (iterwikiquery wpserver wpapi
        (extractparams catname) chain).yields,
      ∃ ps, qp.pages = some ps ∧
        ∃ kv ∈ ps, (kv.2.extract).isSome ∧ kv.2.title = none) :
    collectextracts fres catname chain = .exn (.keyError "title") := by
  have h1 := collectrun_eq_processpayloads fres wpserver wpapi
    (extractparams catname) chain [("continue", "")] herr
  have h2 := processpayloads_bad_title fres _ hall hbad
  exact h1.trans h2

/-- C10 witness: a clean single-fragment run whose one page entry has an
extract but no title makes collectextracts raise the title KeyError. -/
theorem c10_missing_title_raises_witness :
    collectextracts (fun _ => Except.ok 1) "X"
        [⟨none, none, none,
          some ⟨some [("9", ⟨none, some "Hello.", false⟩)]⟩⟩] =
      .exn (.keyError "title") :=
  c10_missing_title_raises (fun _ => Except.ok 1) "X"
    [⟨none, none, none, some ⟨some [("9", ⟨none, some "Hello.", false⟩)]⟩⟩]
    rfl (by decide) (by decide)

end Readease
